import Mathlib

/-!
Verification of the customs-kb hybrid retrieval pipeline.

Shallow embedding of the Python sources under `src/`:
* `src/utils/text_processing.py`  — `chunk_text`, `normalize_text`, word splitting
* `src/ingest/embeddings.py`      — `embed_batch`, `chunk_and_embed`
* `src/storage/qdrant_store.py`   — filter construction and `QdrantStore.search`
* `src/query/semantic_search.py`  — `SemanticSearch.search` (dedup + hydration)
* `src/storage/postgres_store.py` — `get_or_create_agency`, `get_or_create_hts_code`,
  `create_document`
* `src/ingest/htsus.py`           — `HTSUSIngester.transform`

Machine integers are modelled as `Int`/`Nat`; Python `None`-able values as
`Option`; calls into external services (embedding model, Qdrant client,
database session) as explicit oracle arguments, with their documented
contracts taken as hypotheses.  Similarity scores are abstracted to `Int`
(only their ordering matters to the statements below).
-/

namespace CustomsKB

/-! ### Word splitting (`str.split()` in `chunk_text`) -/

/-- Whitespace characters recognized by Python `str.split()` / `\s`
(ASCII fragment; the development only evaluates text handling on ASCII input). -/
def isPySpace (c : Char) : Bool :=
  c = ' ' || c = '\t' || c = '\n' || c = '\r' || c = '\x0b' || c = '\x0c'

/-- Accumulating splitter: `acc` holds the current in-progress word, reversed. -/
def pyWordsAux : List Char → List Char → List (List Char)
  | [], acc => if acc.isEmpty then [] else [acc.reverse]
  | c :: cs, acc =>
    if isPySpace c then
      if acc.isEmpty then pyWordsAux cs [] else acc.reverse :: pyWordsAux cs []
    else
      pyWordsAux cs (c :: acc)

/-- Python `text.split()`: split on runs of whitespace, discarding empty words. -/
def pyWords (s : String) : List String :=
  (pyWordsAux s.toList []).map fun cs => String.mk cs

/-! ### Python list slicing `xs[a:b]` (step 1, possibly negative bounds) -/

/-- Python slice `xs[a:b]`: negative indices count from the end, and both
bounds are clamped to `[0, len]`. -/
def pySlice {α : Type} (xs : List α) (a b : Int) : List α :=
  let n : Int := xs.length
  let a' : Int := if a < 0 then max (n + a) 0 else min a n
  let b' : Int := if b < 0 then max (n + b) 0 else min b n
  (xs.take b'.toNat).drop a'.toNat

/-! ### `chunk_text` (src/utils/text_processing.py, lines 31-67) -/

/-- Python `' '.join(words[start:start + chunk_size])` for the window at `start`. -/
def windowJoin (ws : List String) (chunkSize start : Int) : String :=
  " ".intercalate (pySlice ws start (start + chunkSize))

/-- The `while start < len(words)` loop of `chunk_text`, with explicit fuel.
`none` means the loop has not exited within `fuel` iterations; the loop body
appends the current window and sets `start = (start + chunk_size) - overlap`
(the in-loop `if start >= len(words): break` is the loop condition restated). -/
def chunkLoop (ws : List String) (chunkSize overlap : Int) : Nat → Int → Option (List String)
  | 0, start => if start < (ws.length : Int) then none else some []
  | fuel + 1, start =>
    if start < (ws.length : Int) then
      (chunkLoop ws chunkSize overlap fuel (start + chunkSize - overlap)).map
        fun rest => windowJoin ws chunkSize start :: rest
    else
      some []

/-- `chunk_text(text, chunk_size, overlap)`: empty text returns `[]`; a text of
at most `chunk_size` words returns `[text]`; otherwise the sliding-window loop
runs.  The loop is given fuel `len(words)`, which is provably sufficient
whenever `overlap < chunk_size` (`chunkLoop_total`); `none` marks
configurations on which the Python loop does not terminate. -/
def chunk_text (text : String) (chunkSize overlap : Int) : Option (List String) :=
  if text = "" then some []
  else
    let ws := pyWords text
    if (ws.length : Int) ≤ chunkSize then some [text]
    else chunkLoop ws chunkSize overlap ws.length 0

/-- The word windows `words[j*(cs-ov) : j*(cs-ov)+cs]` actually produced by the
`chunk_text` loop on a text of more than `cs` words (see `chunk_text_chunks`). -/
def chunkWindows (ws : List String) (cs ov : Nat) : List (List String) :=
  (List.range ((ws.length - 1) / (cs - ov) + 1)).map
    fun j => (ws.drop (j * (cs - ov))).take cs

/-! ### `normalize_text` (src/utils/text_processing.py, lines 93-112) -/

/-- Python word character `\w` (ASCII fragment: letters, digits, underscore). -/
def isPyWordChar (c : Char) : Bool :=
  c.isAlphanum || c = '_'

/-- Punctuation kept by `normalize_text`'s whitelist `[^\w\s\.\,\;\:\!\?\-\(\)]`. -/
def isKeptPunct (c : Char) : Bool :=
  c = '.' || c = ',' || c = ';' || c = ':' || c = '!' || c = '?' ||
  c = '-' || c = '(' || c = ')'

/-- Python `re.sub(r'\s+', ' ', ·)`: collapse each maximal whitespace run
to a single space. -/
def collapseWs (l : List Char) : List Char :=
  l.foldr
    (fun c acc =>
      if isPySpace c then
        match acc with
        | ' ' :: _ => acc
        | _ => ' ' :: acc
      else c :: acc)
    []

/-- Python `str.strip()`: drop leading and trailing whitespace. -/
def pyStrip (l : List Char) : List Char :=
  ((l.dropWhile isPySpace).reverse.dropWhile isPySpace).reverse

/-- `normalize_text(text)`: collapse whitespace, drop characters outside the
whitelist, then strip. -/
def normalize_text (text : String) : String :=
  if text = "" then ""
  else
    String.mk
      (pyStrip ((collapseWs text.toList).filter
        fun c => isPyWordChar c || isPySpace c || isKeptPunct c))

/-! ### `EmbeddingGenerator` (src/ingest/embeddings.py)

The sentence-transformer model is an external collaborator; its batch call
`model.encode(batch)` is modelled as `batch.map enc` for an opaque per-text
encoder `enc` (the library's documented contract: one vector per input, in
input order).  Vectors are kept abstract as a type parameter `V`. -/

/-- The successive slices `texts[i : i + batchSize]` for
`i in range(0, len(texts), batchSize)`, with fuel (Python raises on a zero
step, so only `batchSize ≥ 1` is ever exercised; fuel `texts.length` then
suffices). -/
def batchSlices {α : Type} (batchSize : Nat) : Nat → List α → List (List α)
  | _, [] => []
  | 0, l => [l]
  | fuel + 1, l => l.take batchSize :: batchSlices batchSize fuel (l.drop batchSize)

/-- `EmbeddingGenerator.embed_batch(texts)`: normalize each text, then encode
batch by batch, extending the output list. -/
def embed_batch {V : Type} (enc : String → V) (batchSize : Nat) (texts : List String) :
    List V :=
  let normalized := texts.map normalize_text
  (batchSlices batchSize normalized.length normalized).map (fun b => b.map enc) |>.flatten

/-- `EmbeddingGenerator.chunk_and_embed(text, chunk_size, overlap)`:
`chunk_size or settings.chunk_size` replaces a `None` or `0` argument by the
configured default (Python truthiness), then chunks and embeds.  `none` again
marks a non-terminating chunking loop. -/
def chunk_and_embed {V : Type} (enc : String → V) (batchSize : Nat)
    (defaultChunkSize defaultOverlap : Int)
    (text : String) (chunkSize overlap : Option Int) : Option (List (String × V)) :=
  let cs := match chunkSize with
    | none => defaultChunkSize
    | some c => if c = 0 then defaultChunkSize else c
  let ov := match overlap with
    | none => defaultOverlap
    | some o => if o = 0 then defaultOverlap else o
  (chunk_text text cs ov).map fun chunks =>
    if chunks = [] then []
    else chunks.zip (embed_batch enc batchSize chunks)

/-! ### Qdrant filter construction (src/storage/qdrant_store.py, lines 103-180) -/

/-- A `FieldCondition(key=…, match=MatchValue(value=…))`. -/
structure QCondition where
  key : String
  value : String
deriving DecidableEq

/-- A `Filter(must=…)` as built by `QdrantStore.search`. -/
structure QFilter where
  must : List QCondition
deriving DecidableEq

/-- Denormalized chunk payload (`DocumentPayload`, src/models/qdrant_schemas.py). -/
structure Payload where
  document_id : Int
  document_number : String
  source : String
  title : String
  publication_date : Option String
  text_chunk : String
  chunk_index : Int
  hts_codes : List String
  agencies : List String
deriving DecidableEq

/-- The condition list built by `QdrantStore.search`: one `must` entry per
supplied HTS code, one per supplied agency, one for a truthy source
(`if hts_codes: / if agencies: / if source:` — Python treats `None`, `[]`
and `""` alike as falsy). -/
def buildConditions (hts_codes agencies : Option (List String)) (source : Option String) :
    List QCondition :=
  ((hts_codes.getD []).map fun c => QCondition.mk "hts_codes" c) ++
  ((agencies.getD []).map fun a => QCondition.mk "agencies" a) ++
  (match source with
   | some s => if s = "" then [] else [QCondition.mk "source" s]
   | none => [])

/-- `query_filter` as built by `QdrantStore.search`: `None` when no condition
was added, otherwise `Filter(must=conditions)`. -/
def buildQueryFilter (hts_codes agencies : Option (List String)) (source : Option String) :
    Option QFilter :=
  let conditions := buildConditions hts_codes agencies source
  if conditions = [] then none else some (QFilter.mk conditions)

/-- Qdrant's documented match semantics for a single `FieldCondition` against
this collection's payloads: `MatchValue` on the list-valued fields
`hts_codes` / `agencies` tests membership, on the scalar field `source`
equality. -/
def conditionMatches (p : Payload) (c : QCondition) : Bool :=
  if c.key = "hts_codes" then p.hts_codes.contains c.value
  else if c.key = "agencies" then p.agencies.contains c.value
  else if c.key = "source" then p.source = c.value
  else false

/-- Qdrant's documented `Filter` semantics: an absent filter matches every
point; `must` is a conjunction over its conditions. -/
def filterMatches (f : Option QFilter) (p : Payload) : Bool :=
  match f with
  | none => true
  | some fl => fl.must.all (conditionMatches p)

/-- The filter semantics asserted by the spec (§4.3): conjunctive across the
supplied categories, disjunctive within a category — a point matches a
category when its payload field contains any of that category's values.
Stated from the spec's words, for comparison with
`filterMatches (buildQueryFilter …)`. -/
def specFilterMatches (hts_codes agencies : Option (List String)) (source : Option String)
    (p : Payload) : Bool :=
  ((hts_codes.getD []).isEmpty || (hts_codes.getD []).any fun c => p.hts_codes.contains c) &&
  ((agencies.getD []).isEmpty || (agencies.getD []).any fun a => p.agencies.contains a) &&
  (match source with
   | some s => if s = "" then true else decide (p.source = s)
   | none => true)

/-! ### Relational rows (src/models/postgres_models.py) -/

/-- An `agencies` row (`slug` carries a unique constraint). -/
structure AgencyRow where
  id : Nat
  slug : String
  name : String
deriving DecidableEq

/-- An `hts_codes` row (`hts_number` carries a unique constraint). -/
structure HTSRow where
  id : Nat
  hts_number : String
  indent_level : Option Int
  description : String
  general_rate : Option String
  special_rate : Option String
  parent_hts_number : Option String
  effective_date : Option String
deriving DecidableEq

/-- A `documents` row (`document_number` carries a unique constraint) together
with its ORM relationship collections `agencies` and `hts_codes`. -/
structure Document where
  id : Nat
  document_number : String
  source : String
  document_type : Option String
  title : String
  abstract : Option String
  publication_date : Option String
  html_url : Option String
  full_text : Option String
  agencies : List AgencyRow
  hts_codes : List HTSRow
deriving DecidableEq

/-- The field dictionary handed to `get_or_create_hts_code` (`hts_data`). -/
structure HTSData where
  hts_number : String
  indent_level : Option Int
  description : String
  general_rate : Option String
  special_rate : Option String
  parent_hts_number : Option String
  effective_date : Option String
deriving DecidableEq

/-- The field dictionary handed to `create_document` (`document_data`), minus
the `agencies` / `hts_codes` keys the store skips. -/
structure DocData where
  document_number : String
  source : String
  document_type : Option String
  title : String
  abstract : Option String
  publication_date : Option String
  html_url : Option String
  full_text : Option String
deriving DecidableEq

/-- The visible state of one database session: the three tables in insertion
order plus the autoincrement counters `flush()` draws fresh ids from. -/
structure PgDB where
  documents : List Document
  agencies : List AgencyRow
  htsCodes : List HTSRow
  nextDocId : Nat
  nextAgencyId : Nat
  nextHtsId : Nat
deriving DecidableEq

/-! ### `PostgresStore` operations (src/storage/postgres_store.py) -/

/-- `get_or_create_agency(slug, name)`: `filter_by(slug=…).first()`, creating
and flushing a fresh row only when no row with that slug exists. -/
def get_or_create_agency (db : PgDB) (slug name : String) : AgencyRow × PgDB :=
  match db.agencies.find? (fun a => a.slug = slug) with
  | some a => (a, db)
  | none =>
    let a : AgencyRow := { id := db.nextAgencyId, slug := slug, name := name }
    (a, { db with agencies := db.agencies ++ [a], nextAgencyId := db.nextAgencyId + 1 })

/-- `get_or_create_hts_code(hts_data)`: `filter_by(hts_number=…).first()`,
creating `HTSCode(**hts_data)` only when no row with that number exists; an
existing row is returned untouched. -/
def get_or_create_hts_code (db : PgDB) (data : HTSData) : HTSRow × PgDB :=
  match db.htsCodes.find? (fun h => h.hts_number = data.hts_number) with
  | some h => (h, db)
  | none =>
    let h : HTSRow :=
      { id := db.nextHtsId, hts_number := data.hts_number,
        indent_level := data.indent_level, description := data.description,
        general_rate := data.general_rate, special_rate := data.special_rate,
        parent_hts_number := data.parent_hts_number,
        effective_date := data.effective_date }
    (h, { db with htsCodes := db.htsCodes ++ [h], nextHtsId := db.nextHtsId + 1 })

/-- The in-place `setattr` sweep `create_document` performs on an existing row:
every key of `document_data` except `agencies` / `hts_codes` is written. -/
def applyDocData (d : Document) (data : DocData) : Document :=
  { d with
    document_number := data.document_number, source := data.source,
    document_type := data.document_type, title := data.title,
    abstract := data.abstract, publication_date := data.publication_date,
    html_url := data.html_url, full_text := data.full_text }

/-- `create_document(document_data)`: look up by `document_number`; update the
existing row's fields in place when found, otherwise insert a fresh row (with
empty relationship collections) and flush. -/
def create_document (db : PgDB) (data : DocData) : Document × PgDB :=
  match db.documents.find? (fun d => d.document_number = data.document_number) with
  | some d =>
    let d' := applyDocData d data
    (d', { db with documents := db.documents.map fun x => if x.id = d.id then d' else x })
  | none =>
    let d : Document :=
      { id := db.nextDocId, document_number := data.document_number,
        source := data.source, document_type := data.document_type,
        title := data.title, abstract := data.abstract,
        publication_date := data.publication_date, html_url := data.html_url,
        full_text := data.full_text, agencies := [], hts_codes := [] }
    (d, { db with documents := db.documents ++ [d], nextDocId := db.nextDocId + 1 })

/-- `get_document_by_id(document_id)`: `filter_by(id=…).first()`. -/
def get_document_by_id (docs : List Document) (id : Int) : Option Document :=
  docs.find? fun d => (d.id : Int) = id

/-! ### `SemanticSearch.search` (src/query/semantic_search.py, lines 25-105)

The Qdrant client call is an oracle `client : vector → filter → Except`;
an `Except.error` models the exception `QdrantStore.search` catches.  The
embedding call is likewise an `Except` — `SemanticSearch.search` performs it
outside any `try`, so its error propagates through the `do` block exactly as
the Python exception does. -/

/-- One Qdrant search hit (`id`, `score`, `payload`); similarity scores are
abstracted to `Int`. -/
structure ScoredPoint where
  id : String
  score : Int
  payload : Payload
deriving DecidableEq

/-- A record of `SemanticSearch.search`'s result list. -/
structure SearchResult where
  document_number : String
  title : String
  abstract : Option String
  publication_date : Option String
  source : String
  document_type : Option String
  html_url : Option String
  score : Int
  matched_chunk : String
  agencies : List String
  hts_codes : List String
deriving DecidableEq

/-- `QdrantStore.search`: build the filter, call the client inside
`try/except`, and return `[]` on any client exception (the result dicts keep
exactly the hit's `id`/`score`/`payload`). -/
def qdrantStoreSearch (client : Option QFilter → Except String (List ScoredPoint))
    (hts_codes agencies : Option (List String)) (source : Option String) :
    List ScoredPoint :=
  let query_filter := buildQueryFilter hts_codes agencies source
  match client query_filter with
  | Except.ok results => results
  | Except.error _ => []

/-- The result record built for the first chunk seen of a document. -/
def mkSearchResult (doc : Document) (r : ScoredPoint) : SearchResult :=
  { document_number := doc.document_number, title := doc.title,
    abstract := doc.abstract, publication_date := doc.publication_date,
    source := doc.source, document_type := doc.document_type,
    html_url := doc.html_url, score := r.score,
    matched_chunk := r.payload.text_chunk.take 200 ++ "...",
    agencies := doc.agencies.map (fun a => a.name),
    hts_codes := doc.hts_codes.map (fun h => h.hts_number) }

/-- The hydration loop of `SemanticSearch.search`: walk the candidates in
order, skip a candidate whose `document_id` was already seen, mark the id as
seen, and emit a record only when `get_document_by_id` finds the document. -/
def hydrateLoop (docs : List Document) : List ScoredPoint → List Int → List SearchResult
  | [], _ => []
  | r :: rest, seen =>
    if r.payload.document_id ∈ seen then
      hydrateLoop docs rest seen
    else
      match get_document_by_id docs r.payload.document_id with
      | some doc => mkSearchResult doc r :: hydrateLoop docs rest (r.payload.document_id :: seen)
      | none => hydrateLoop docs rest (r.payload.document_id :: seen)

/-- `SemanticSearch.search(query, …)`: embed the query (uncaught on failure),
search Qdrant through `QdrantStore.search`, return early on an empty candidate
list, then hydrate with per-document dedup. -/
def semanticSearch (docs : List Document) (embedText : Except String (List Int))
    (client : List Int → Option QFilter → Except String (List ScoredPoint))
    (hts_codes agencies : Option (List String)) (source : Option String) :
    Except String (List SearchResult) :=
  match embedText with
  | Except.error e => Except.error e
  | Except.ok query_embedding =>
    let qdrant_results := qdrantStoreSearch (client query_embedding) hts_codes agencies source
    if qdrant_results = [] then Except.ok []
    else Except.ok (hydrateLoop docs qdrant_results [])

/-! ### `HTSUSIngester.transform` (src/ingest/htsus.py, lines 127-155) -/

/-- One row of the ingested tariff listing: `row.get('parent_hts_number')`
yields `none` when the column is absent. -/
structure HtsListingRow where
  hts_number : String
  indent_level : Option Int
  description : String
  general_rate : Option String
  special_rate : Option String
  parent_hts_number : Option String
deriving DecidableEq

/-- `HTSUSIngester.transform(raw_data)`: per row, build the `hts_code` dict by
copying the row's fields — including `parent_hts_number` verbatim — with
`effective_date = None`; return the list and its count. -/
def transform (rows : List HtsListingRow) : List HTSData × Nat :=
  (rows.map fun r =>
    { hts_number := r.hts_number, indent_level := r.indent_level,
      description := r.description, general_rate := r.general_rate,
      special_rate := r.special_rate, parent_hts_number := r.parent_hts_number,
      effective_date := none },
   rows.length)

/-! ### The spec's hierarchy resolver (spec §3 invariant, §4.4)

The spec describes a pure function `infer_parent(code, level, trailing_state)`
threading a level→last-seen-code state through the listing.  No such function
exists anywhere in the repository; it is stated here from the spec's words for
comparison with `transform`. -/

/-- The parent-inference rule as the spec states it: a code at level `L` gets
as parent the nearest preceding code at a strictly shallower level (searching
`L-1` down to `0`); the code then becomes the last seen at level `L` and all
tracked levels `> L` are cleared.  `trailing` maps a level to the last code
seen at that level. -/
def specInferParent (code : String) (level : Int) (trailing : List (Int × String)) :
    Option String × List (Int × String) :=
  let parent :=
    ((List.range level.toNat).reverse.map fun l =>
      (trailing.find? fun p => p.1 = (l : Int)).map fun p => p.2).foldl
      (fun acc o => match acc with | some _ => acc | none => o) none
  (parent, (level, code) :: trailing.filter fun p => p.1 < level)

/-- The spec's resolver applied once per `(code, level)` row in listing order,
threading the trailing state. -/
def specInferParents (rows : List (String × Int)) : List (Option String) :=
  (rows.foldl
    (fun (acc : List (Option String) × List (Int × String)) r =>
      let (parent, trailing) := specInferParent r.1 r.2 acc.2
      (acc.1 ++ [parent], trailing))
    ([], [])).1

/-! ### Window counting for the chunking loop -/

/-- Number of iterations the `chunk_text` loop performs from index `start`
when the step is `s ≥ 1` (used to characterize the produced windows). -/
def numWin (N s start : Nat) : Nat :=
  if start < N then (N - start - 1) / s + 1 else 0

/-! ### Concrete instances used by the counterexample and witness theorems -/

/-- The spec's example listing `[(A,0), (B,1), (C,2), (D,1), (E,2)]` as rows of
the ingested table, with no `parent_hts_number` column present. -/
def sampleListing : List HtsListingRow :=
  [{ hts_number := "A", indent_level := some 0, description := "a",
     general_rate := none, special_rate := none, parent_hts_number := none },
   { hts_number := "B", indent_level := some 1, description := "b",
     general_rate := none, special_rate := none, parent_hts_number := none },
   { hts_number := "C", indent_level := some 2, description := "c",
     general_rate := none, special_rate := none, parent_hts_number := none },
   { hts_number := "D", indent_level := some 1, description := "d",
     general_rate := none, special_rate := none, parent_hts_number := none },
   { hts_number := "E", indent_level := some 2, description := "e",
     general_rate := none, special_rate := none, parent_hts_number := none }]

/-- A chunk payload carrying the first but not the second of two filtered HTS
codes. -/
def payloadA : Payload :=
  { document_id := 1, document_number := "FR-1", source := "federal_register",
    title := "Cheese quota notice", publication_date := none,
    text_chunk := "Fresh cheese …", chunk_index := 0,
    hts_codes := ["0406.10.00"], agencies := ["cbp"] }

/-- An empty session state. -/
def emptyDB : PgDB :=
  { documents := [], agencies := [], htsCodes := [],
    nextDocId := 1, nextAgencyId := 1, nextHtsId := 1 }

/-- The `hts_data` dictionary of the repository's own test. -/
def sampleHtsData : HTSData :=
  { hts_number := "0406.10.00", indent_level := some 2,
    description := "Fresh cheese", general_rate := some "10%",
    special_rate := none, parent_hts_number := none, effective_date := none }

/-- A store state holding one tariff row and one document row. -/
def seededDB : PgDB :=
  { documents :=
      [{ id := 7, document_number := "2024-00001", source := "federal_register",
         document_type := some "Notice", title := "Old title",
         abstract := some "Old abstract", publication_date := some "2024-01-01",
         html_url := none, full_text := some "old text",
         agencies := [{ id := 1, slug := "cbp", name := "CBP" }], hts_codes := [] }],
    agencies := [{ id := 1, slug := "cbp", name := "CBP" }],
    htsCodes :=
      [{ id := 3, hts_number := "0406.10.00", indent_level := some 2,
         description := "Fresh cheese", general_rate := some "10%",
         special_rate := none, parent_hts_number := some "0406.00.00",
         effective_date := none }],
    nextDocId := 8, nextAgencyId := 2, nextHtsId := 4 }

/-- Differing data re-ingested for the tariff row of `seededDB`. -/
def differingHtsData : HTSData :=
  { hts_number := "0406.10.00", indent_level := some 9,
    description := "CHANGED description", general_rate := some "99%",
    special_rate := some "Free", parent_hts_number := none,
    effective_date := some "2025-01-01" }

/-- Differing data re-ingested for the document row of `seededDB`. -/
def differingDocData : DocData :=
  { document_number := "2024-00001", source := "federal_register",
    document_type := some "Rule", title := "New title",
    abstract := some "New abstract", publication_date := some "2024-06-30",
    html_url := some "https://example.gov/doc", full_text := some "new text" }

/-- A hydratable document row. -/
def docOne : Document :=
  { id := 1, document_number := "2024-00001", source := "federal_register",
    document_type := some "Notice", title := "T", abstract := none,
    publication_date := none, html_url := none, full_text := none,
    agencies := [], hts_codes := [] }

/-- A high-scoring chunk hit on `docOne`. -/
def pointHi : ScoredPoint :=
  { id := "p1", score := 9,
    payload :=
      { document_id := 1, document_number := "2024-00001",
        source := "federal_register", title := "T", publication_date := none,
        text_chunk := "alpha", chunk_index := 0, hts_codes := [], agencies := [] } }

/-- A lower-scoring chunk hit on the same document. -/
def pointLo : ScoredPoint :=
  { id := "p2", score := 7,
    payload :=
      { document_id := 1, document_number := "2024-00001",
        source := "federal_register", title := "T", publication_date := none,
        text_chunk := "beta", chunk_index := 1, hts_codes := [], agencies := [] } }

/-! ## Helper lemmas -/

/-- `chunkLoop` advances its start index by `chunkSize - overlap ≥ 1` per
iteration, so fuel `len(words) - start` suffices: the loop terminates for
every configuration with `overlap < chunk_size`. -/
theorem chunkLoop_total (ws : List String) (cs ov : Int) (hov : ov < cs) :
    ∀ (fuel : Nat) (start : Int), (ws.length : Int) - start ≤ fuel →
      ∃ r, chunkLoop ws cs ov fuel start = some r := by
  intro fuel
  induction fuel with
  | zero =>
    intro start h
    refine ⟨[], ?_⟩
    have hge : ¬ start < (ws.length : Int) := by omega
    simp [chunkLoop, hge]
  | succ n ih =>
    intro start h
    by_cases hlt : start < (ws.length : Int)
    · obtain ⟨r, hr⟩ := ih (start + cs - ov) (by omega)
      exact ⟨windowJoin ws cs start :: r, by simp [chunkLoop, hlt, hr]⟩
    · exact ⟨[], by simp [chunkLoop, hlt]⟩

/-- General form of `List.all_map` (the library's version is restricted to an
endomorphism). -/
theorem all_map_general {α β : Type} (f : α → β) (p : β → Bool) (l : List α) :
    (l.map f).all p = l.all fun a => p (f a) := by
  induction l with
  | nil => rfl
  | cons x xs ih => simp [ih]

/-- On natural-number bounds `pySlice` is the ordinary drop/take slice. -/
theorem windowJoin_natCast (ws : List String) (cs start : Nat) :
    windowJoin ws (cs : Int) (start : Int) =
      " ".intercalate ((ws.drop start).take cs) := by
  have h1 : ¬ ((start : Int) < 0) := by omega
  have h2 : ¬ ((start : Int) + (cs : Int) < 0) := by omega
  simp only [windowJoin, pySlice, if_neg h1, if_neg h2]
  have e0 : (start : Int) + (cs : Int) = ((start + cs : Nat) : Int) := by push_cast; ring
  rw [e0, ← Nat.cast_min, ← Nat.cast_min, Int.toNat_natCast, Int.toNat_natCast]
  congr 1
  rcases le_or_lt start ws.length with hs | hs
  · rw [min_eq_left hs]
    by_cases h : start + cs ≤ ws.length
    · rw [min_eq_left h, List.drop_take]
      congr 1
      omega
    · rw [min_eq_right (by omega), List.take_length]
      rw [List.take_of_length_le (by rw [List.length_drop]; omega)]
  · rw [min_eq_right (le_of_lt hs)]
    rw [List.drop_eq_nil_of_le (by rw [List.length_take]; omega)]
    rw [List.drop_eq_nil_of_le (le_of_lt hs), List.take_nil]

/-- One loop iteration from an in-range start adds exactly one window. -/
theorem numWin_succ (N s start : Nat) (hs : 0 < s) (h : start < N) :
    numWin N s start = numWin N s (start + s) + 1 := by
  unfold numWin
  rw [if_pos h]
  by_cases h2 : start + s < N
  · rw [if_pos h2]
    have e : N - start - 1 = (N - (start + s) - 1) + s := by omega
    rw [e, Nat.add_div_right _ hs]
  · rw [if_neg h2]
    have e : N - start - 1 < s := by omega
    rw [Nat.div_eq_of_lt e]

/-- Characterization of the `chunk_text` loop for a positive step: from start
index `start` (with sufficient fuel) it returns exactly the windows
`words[start + j*step : start + j*step + chunk_size]` for
`j = 0, …, numWin - 1`, each joined with single spaces. -/
theorem chunkLoop_windows (ws : List String) (cs ov : Nat) (hov : ov < cs) :
    ∀ (fuel start : Nat), ws.length ≤ start + fuel →
      chunkLoop ws (cs : Int) (ov : Int) fuel (start : Int) =
        some ((List.range (numWin ws.length (cs - ov) start)).map
          fun j => " ".intercalate ((ws.drop (start + j * (cs - ov))).take cs)) := by
  intro fuel
  induction fuel with
  | zero =>
    intro start h
    have hge : ¬ ((start : Int) < (ws.length : Int)) := by omega
    have hn : numWin ws.length (cs - ov) start = 0 := by
      unfold numWin
      rw [if_neg (by omega)]
    simp [chunkLoop, hge, hn]
  | succ n ih =>
    intro start h
    by_cases hlt : start < ws.length
    · have hlt' : (start : Int) < (ws.length : Int) := by omega
      have harg : (start : Int) + (cs : Int) - (ov : Int) =
          ((start + (cs - ov) : Nat) : Int) := by omega
      simp only [chunkLoop, if_pos hlt']
      rw [harg, ih (start + (cs - ov)) (by omega), Option.map_some']
      rw [windowJoin_natCast]
      rw [numWin_succ ws.length (cs - ov) start (by omega) hlt]
      rw [List.range_succ_eq_map, List.map_cons, List.map_map]
      refine congrArg some ?_
      refine congrArg₂ List.cons ?_ ?_
      · simp
      · refine List.map_congr_left ?_
        intro j _
        simp only [Function.comp, Nat.succ_eq_add_one]
        ring_nf
    · have hge : ¬ ((start : Int) < (ws.length : Int)) := by omega
      have hn : numWin ws.length (cs - ov) start = 0 := by
        unfold numWin
        rw [if_neg (by omega)]
      simp [chunkLoop, hge, hn]

/-- Unpacking `getElem?` on a mapped range. -/
theorem range_map_getElem {β : Type} (f : Nat → β) (n j : Nat) (b : β)
    (h : ((List.range n).map f)[j]? = some b) : j < n ∧ b = f j := by
  rcases lt_or_ge j n with hj | hj
  · rw [List.getElem?_map, List.getElem?_range hj] at h
    exact ⟨hj, (Option.some.inj h).symm⟩
  · rw [List.getElem?_map, List.getElem?_eq_none (by simpa using hj)] at h
    exact absurd h (by simp)

/-- Index bound for the boundary-sharing argument: when the word count is
`ov` plus a multiple of the step and `ov ≤ step`, every window except the last
one ends at least `ov` words before the end of the text. -/
theorem window_share_bound (N s ov j : Nat) (hs : 0 < s) (hovs : ov ≤ s)
    (hdvd : (N - ov) % s = 0) (hovN : ov < N) (hj : j + 1 ≤ (N - 1) / s) :
    (j + 1) * s + ov ≤ N := by
  obtain ⟨m, hm⟩ := Nat.dvd_of_mod_eq_zero hdvd
  have hmul : (j + 1) * s ≤ N - 1 := (Nat.le_div_iff_mul_le hs).mp hj
  by_cases hov0 : ov = 0
  · omega
  · have hN1 : N - 1 = s * m + (ov - 1) := by omega
    have hdiv : (N - 1) / s = m := by
      rw [hN1, Nat.mul_add_div hs, Nat.div_eq_of_lt (by omega)]
      omega
    have hjm : j + 1 ≤ m := by omega
    have hmul2 : (j + 1) * s ≤ m * s := Nat.mul_le_mul_right s hjm
    have hcomm : s * m = m * s := Nat.mul_comm s m
    omega

/-! ## C3 — chunking configuration `overlap ≥ chunk_size` -/

/-- C3: the spec requires `chunk_text` to detect `overlap ≥ chunk_size` (a
non-positive step) and fail fast.  The code contains no such check and its
`# Avoid infinite loop` guard tests `start >= len(words)`, which a stationary
start never reaches: on the three-word text `"a b c"` with
`chunk_size = overlap = 2` the loop never exits, at any fuel.  The second
conjunct records the half of the claim the code does satisfy: for
`overlap < chunk_size` the loop always terminates. -/
theorem chunk_text_diverges_on_bad_config :
    (∀ fuel : Nat, chunkLoop (pyWords "a b c") 2 2 fuel 0 = none) ∧
    chunk_text "a b c" 2 2 = none ∧
    (∀ (text : String) (cs ov : Int), ov < cs → ∃ r, chunk_text text cs ov = some r) := by
  have hloop : ∀ fuel : Nat, chunkLoop (pyWords "a b c") 2 2 fuel 0 = none := by
    intro fuel
    induction fuel with
    | zero => decide
    | succ n ih =>
      have h0 : (0 : Int) + 2 - 2 = 0 := by decide
      simp only [chunkLoop, h0, ih]
      decide
  refine ⟨hloop, hloop 3, ?_⟩
  intro text cs ov hov
  unfold chunk_text
  by_cases ht : text = ""
  · exact ⟨[], by simp [ht]⟩
  · simp only [ht, if_false]
    by_cases hshort : ((pyWords text).length : Int) ≤ cs
    · exact ⟨[text], by simp [hshort]⟩
    · obtain ⟨r, hr⟩ := chunkLoop_total (pyWords text) cs ov hov (pyWords text).length 0 (by omega)
      exact ⟨r, by simp [hshort, hr]⟩

/-- C3 witness: the divergence at concrete fuel 5, and a concrete terminating
configuration with `overlap < chunk_size`. -/
theorem chunk_text_diverges_on_bad_config_witness :
    chunkLoop (pyWords "a b c") 2 2 5 0 = none ∧
    ∃ r, chunk_text "x y z" 2 1 = some r :=
  ⟨chunk_text_diverges_on_bad_config.1 5,
   chunk_text_diverges_on_bad_config.2.2 "x y z" 2 1 (by decide)⟩

/-! ## C8 — texts of at most `chunk_size` words -/

/-- C8 counterexample: the empty text has word count `0 ≤ chunk_size`, yet
`chunk_text` returns `[]` (the `if not text` early return), not the single
chunk `[""]` the claim requires. -/
theorem chunk_text_empty_counterexample :
    chunk_text "" 512 50 = some [] ∧ ¬ chunk_text "" 512 50 = some [""] := by
  decide

/-- C8 (amended): for every NON-empty text of at most `chunk_size` words,
`chunk_text` returns exactly one chunk equal to the whole input; the empty
text instead returns the empty list. -/
theorem chunk_text_short_text (text : String) (cs ov : Int)
    (ht : text ≠ "") (hlen : ((pyWords text).length : Int) ≤ cs) :
    chunk_text text cs ov = some [text] := by
  simp [chunk_text, ht, hlen]

/-- C8 witness: the two-word text of the repository's own test
(`test_chunk_text_short`). -/
theorem chunk_text_short_text_witness :
    chunk_text "Short text" 100 10 = some ["Short text"] :=
  chunk_text_short_text "Short text" 100 10 (by decide) (by decide)

/-! ## C7 — `chunk_and_embed` on empty and whitespace-only input -/

/-- C7 counterexample: on the whitespace-only text `" "` the word list is
empty, so `chunk_text` takes its `len(words) <= chunk_size` branch and returns
`[" "]`; `chunk_and_embed` therefore embeds one chunk and returns one pair,
not the empty sequence the claim requires. -/
theorem chunk_and_embed_whitespace_counterexample :
    chunk_and_embed (fun s => s.length) 32 512 50 " " (some 512) (some 50) =
      some [(" ", 0)] ∧
    ¬ chunk_and_embed (fun s => s.length) 32 512 50 " " (some 512) (some 50) = some [] := by
  decide

/-- C7 (amended): `chunk_and_embed` returns the empty sequence only for the
empty text; for a non-empty whitespace-only text (empty word list) it returns
exactly one pair, whose chunk is the original text. -/
theorem chunk_and_embed_empty_input {V : Type} (enc : String → V) (batchSize : Nat)
    (dcs dov : Int) (text : String) (c ov : Int)
    (hb : 1 ≤ batchSize) (hc : 0 < c) :
    chunk_and_embed enc batchSize dcs dov "" (some c) (some ov) = some [] ∧
    (text ≠ "" → pyWords text = [] →
      chunk_and_embed enc batchSize dcs dov text (some c) (some ov) =
        some [(text, enc (normalize_text text))]) := by
  constructor
  · simp [chunk_and_embed, chunk_text]
  · intro ht hw
    obtain ⟨b, rfl⟩ : ∃ b, batchSize = b + 1 := ⟨batchSize - 1, by omega⟩
    have hcz : ¬ c = 0 := by omega
    have hchunks : ∀ o : Int, chunk_text text c o = some [text] := by
      intro o
      refine chunk_text_short_text text c o ht ?_
      rw [hw]
      simpa using le_of_lt hc
    simp [chunk_and_embed, hcz, hchunks, embed_batch, batchSlices]

/-- C7 witness: the empty text and the single-space text, embedded with the
length function as encoder and the configured defaults. -/
theorem chunk_and_embed_empty_input_witness :
    chunk_and_embed (fun s => s.length) 32 512 50 "" (some 512) (some 50) = some [] ∧
    chunk_and_embed (fun s => s.length) 32 512 50 " " (some 512) (some 50) =
      some [(" ", String.length (normalize_text " "))] :=
  ⟨(chunk_and_embed_empty_input (fun s => s.length) 32 512 50 " " 512 50
      (by decide) (by decide)).1,
   (chunk_and_embed_empty_input (fun s => s.length) 32 512 50 " " 512 50
      (by decide) (by decide)).2 (by decide) (by decide)⟩

/-! ## C4 — tariff-code parent inference -/

/-- C4 counterexample: on the spec's own example rows the code's `transform`
assigns no parent to any code (it only copies the absent `parent_hts_number`
column), while the spec's inference rule — stated in `specInferParents` —
would assign `[none, A, B, A, D]`.  The claimed parents are not what the code
produces. -/
theorem transform_parent_counterexample :
    ((transform sampleListing).1.map fun h => h.parent_hts_number) =
      [none, none, none, none, none] ∧
    specInferParents [("A", 0), ("B", 1), ("C", 2), ("D", 1), ("E", 2)] =
      [none, some "A", some "B", some "A", some "D"] ∧
    ¬ ((transform sampleListing).1.map fun h => h.parent_hts_number) =
      [none, some "A", some "B", some "A", some "D"] := by
  decide

/-- C4 (amended): `HTSUSIngester.transform` performs no parent inference at
all: each output's `parent_hts_number` is copied verbatim from its input row
(absent column ⇒ `none`), independent of indent levels and of every other
row, and the reported count is the row count. -/
theorem transform_copies_parent (rows : List HtsListingRow) :
    ((transform rows).1.map fun h => h.parent_hts_number) =
      (rows.map fun r => r.parent_hts_number) ∧
    (transform rows).2 = rows.length := by
  constructor
  · simp [transform, List.map_map]
  · rfl

/-! ## C6 — failure semantics of the retrieval path -/

/-- C6 counterexample: a failing embedding call is NOT caught by
`SemanticSearch.search` — the exception propagates to the caller instead of
producing the empty result the claim promises. -/
theorem semanticSearch_embed_error_counterexample :
    semanticSearch [] (Except.error "embedding backend unreachable")
        (fun _ _ => Except.ok []) none none none =
      Except.error "embedding backend unreachable" ∧
    (Except.error "embedding backend unreachable" :
        Except String (List SearchResult)) ≠ Except.ok [] := by
  exact ⟨rfl, fun h => nomatch h⟩

/-- C6 (amended): only the vector-index call is protected — a failing Qdrant
client call is caught inside `QdrantStore.search` and surfaces as the
empty-ok result, while a failing embedding call propagates as an error for
every store, client and filter combination. -/
theorem semanticSearch_failure_semantics (docs : List Document) (qv : List Int)
    (e e' : String)
    (client : List Int → Option QFilter → Except String (List ScoredPoint))
    (h a : Option (List String)) (s : Option String) :
    semanticSearch docs (Except.ok qv) (fun _ _ => Except.error e) h a s =
      Except.ok [] ∧
    semanticSearch docs (Except.error e') client h a s = Except.error e' := by
  exact ⟨rfl, rfl⟩

/-! ## C2 — composition of vector-index filters -/

/-- C2 counterexample: with two HTS codes supplied, the spec's semantics
(OR within the category) accepts a payload containing only one of them, but
the filter the code builds — one `must` condition per value — rejects it:
within a category the built filter is conjunctive, not disjunctive. -/
theorem filter_within_category_counterexample :
    specFilterMatches (some ["0406.10.00", "0406.30.00"]) none none payloadA = true ∧
    filterMatches (buildQueryFilter (some ["0406.10.00", "0406.30.00"]) none none)
      payloadA = false := by
  decide

/-- C2 (amended): the built filter is conjunctive across EVERY supplied value,
across and within categories alike: a point matches iff its `hts_codes`
payload field contains each supplied HTS code, its `agencies` field contains
each supplied agency, and its `source` equals a supplied (truthy) source. -/
theorem buildQueryFilter_all_conjunctive (h a : Option (List String))
    (s : Option String) (p : Payload) :
    filterMatches (buildQueryFilter h a s) p =
      (((h.getD []).all fun c => p.hts_codes.contains c) &&
       ((a.getD []).all fun x => p.agencies.contains x) &&
       (match s with
        | some s' => if s' = "" then true else decide (p.source = s')
        | none => true)) := by
  have key : ∀ conds : List QCondition,
      filterMatches (if conds = [] then none else some (QFilter.mk conds)) p =
        conds.all (conditionMatches p) := by
    intro conds
    by_cases hc : conds = []
    · simp [hc, filterMatches]
    · simp [hc, filterMatches]
  unfold buildQueryFilter
  rw [key]
  unfold buildConditions
  rw [List.all_append, List.all_append, all_map_general, all_map_general]
  have hhts : ∀ c : String,
      conditionMatches p (QCondition.mk "hts_codes" c) = p.hts_codes.contains c := by
    intro c
    simp [conditionMatches]
  have hag : ∀ x : String,
      conditionMatches p (QCondition.mk "agencies" x) = p.agencies.contains x := by
    intro x
    simp [conditionMatches]
  simp only [hhts, hag]
  congr 1
  match s with
  | none => simp
  | some s' =>
    by_cases hs : s' = ""
    · simp [hs]
    · simp [hs, conditionMatches]

/-! ## C9 — get-or-create idempotency in the natural key -/

/-- C9: under the stores' uniqueness invariant (at most one row per natural
key, enforced by the `unique` columns), calling `get_or_create_agency` —
respectively `get_or_create_hts_code` — twice with an identical natural key
returns the same row and the same state the second time, and leaves exactly
one row for that key; no duplicate row is ever inserted, so no uniqueness
violation can reach the caller. -/
theorem get_or_create_idempotent (db : PgDB) (slug name : String) (data : HTSData)
    (hA : db.agencies.countP (fun a => a.slug = slug) ≤ 1)
    (hH : db.htsCodes.countP (fun h => h.hts_number = data.hts_number) ≤ 1) :
    (get_or_create_agency (get_or_create_agency db slug name).2 slug name =
        ((get_or_create_agency db slug name).1, (get_or_create_agency db slug name).2) ∧
      (get_or_create_agency db slug name).2.agencies.countP
        (fun a => a.slug = slug) = 1) ∧
    (get_or_create_hts_code (get_or_create_hts_code db data).2 data =
        ((get_or_create_hts_code db data).1, (get_or_create_hts_code db data).2) ∧
      (get_or_create_hts_code db data).2.htsCodes.countP
        (fun h => h.hts_number = data.hts_number) = 1) := by
  constructor
  · cases hfind : db.agencies.find? (fun a => a.slug = slug) with
    | some arow =>
      have hmem := List.mem_of_find?_eq_some hfind
      have hpa := List.find?_some hfind
      have hpos : 0 < db.agencies.countP (fun a => a.slug = slug) :=
        List.countP_pos_iff.mpr ⟨arow, hmem, hpa⟩
      constructor
      · simp only [get_or_create_agency, hfind]
      · simp only [get_or_create_agency, hfind]
        omega
    | none =>
      have hzero : db.agencies.countP (fun a => a.slug = slug) = 0 :=
        List.countP_eq_zero.mpr (List.find?_eq_none.mp hfind)
      simp only [get_or_create_agency, hfind, List.find?_append,
        List.countP_append, hzero]
      simp [get_or_create_agency, List.find?_append, hfind]
  · cases hfind : db.htsCodes.find? (fun h => h.hts_number = data.hts_number) with
    | some hrow =>
      have hmem := List.mem_of_find?_eq_some hfind
      have hph := List.find?_some hfind
      have hpos : 0 < db.htsCodes.countP (fun h => h.hts_number = data.hts_number) :=
        List.countP_pos_iff.mpr ⟨hrow, hmem, hph⟩
      constructor
      · simp only [get_or_create_hts_code, hfind]
      · simp only [get_or_create_hts_code, hfind]
        omega
    | none =>
      have hzero : db.htsCodes.countP (fun h => h.hts_number = data.hts_number) = 0 :=
        List.countP_eq_zero.mpr (List.find?_eq_none.mp hfind)
      simp only [get_or_create_hts_code, hfind, List.find?_append,
        List.countP_append, hzero]
      simp [get_or_create_hts_code, List.find?_append, hfind]

/-- C9 witness: both get-or-creates run twice from the empty state with the
test suite's natural keys. -/
theorem get_or_create_idempotent_witness :
    (get_or_create_agency
        (get_or_create_agency emptyDB "cbp" "Customs and Border Protection").2
        "cbp" "Customs and Border Protection" =
        ((get_or_create_agency emptyDB "cbp" "Customs and Border Protection").1,
         (get_or_create_agency emptyDB "cbp" "Customs and Border Protection").2) ∧
      (get_or_create_agency emptyDB "cbp" "Customs and Border Protection").2.agencies.countP
        (fun a => a.slug = "cbp") = 1) ∧
    (get_or_create_hts_code (get_or_create_hts_code emptyDB sampleHtsData).2 sampleHtsData =
        ((get_or_create_hts_code emptyDB sampleHtsData).1,
         (get_or_create_hts_code emptyDB sampleHtsData).2) ∧
      (get_or_create_hts_code emptyDB sampleHtsData).2.htsCodes.countP
        (fun h => h.hts_number = sampleHtsData.hts_number) = 1) :=
  get_or_create_idempotent emptyDB "cbp" "Customs and Border Protection" sampleHtsData
    (by decide) (by decide)

/-! ## C10 — re-ingestion: tariff rows frozen, document rows updated -/

/-- C10: when a row with the supplied `hts_number` already exists,
`get_or_create_hts_code` returns it with every field untouched and leaves the
state unchanged, whatever the supplied data; `create_document`, by contrast,
rewrites every supplied field of an existing document row in place (same `id`,
same position in the table, relationship collections untouched). -/
theorem hts_frozen_document_updated (db : PgDB) (data : HTSData) (row : HTSRow)
    (ddata : DocData) (d : Document)
    (hrow : db.htsCodes.find? (fun h => h.hts_number = data.hts_number) = some row)
    (hdoc : db.documents.find?
      (fun x => x.document_number = ddata.document_number) = some d) :
    get_or_create_hts_code db data = (row, db) ∧
    (create_document db ddata).1 = applyDocData d ddata ∧
    (create_document db ddata).2 =
      { db with documents :=
          db.documents.map fun x => if x.id = d.id then applyDocData d ddata else x } := by
  refine ⟨?_, ?_, ?_⟩
  · simp only [get_or_create_hts_code, hrow]
  · simp only [create_document, hdoc]
  · simp only [create_document, hdoc]

/-- C10 witness: re-ingesting differing data against `seededDB` leaves the
tariff row and the state untouched while the document row is rewritten in
place. -/
theorem hts_frozen_document_updated_witness :
    get_or_create_hts_code seededDB differingHtsData =
      ((seededDB.htsCodes.get ⟨0, by decide⟩), seededDB) ∧
    (create_document seededDB differingDocData).1 =
      applyDocData (seededDB.documents.get ⟨0, by decide⟩) differingDocData ∧
    (create_document seededDB differingDocData).2 =
      { seededDB with documents :=
          seededDB.documents.map fun x =>
            if x.id = (seededDB.documents.get ⟨0, by decide⟩).id then
              applyDocData (seededDB.documents.get ⟨0, by decide⟩) differingDocData
            else x } :=
  hts_frozen_document_updated seededDB differingHtsData
    (seededDB.htsCodes.get ⟨0, by decide⟩) differingDocData
    (seededDB.documents.get ⟨0, by decide⟩) (by decide) (by decide)

/-! ## C5 — chunk overlap and chunk count -/

/-- C5 counterexample: `"a b c d e"` with `chunk_size = 4`, `overlap = 3`
(5 words, `N - overlap = 2` evenly divisible by `chunk_size - overlap = 1`).
The loop emits 5 chunks — its stop condition tests the next start index, not
the window end, so it keeps producing suffix windows — while the claimed
count is `ceil((N - overlap)/(chunk_size - overlap)) = 2`; and the
consecutive chunks `"d e"`, `"e"` cannot share `overlap = 3` words. -/
theorem chunk_text_count_counterexample :
    chunk_text "a b c d e" 4 3 =
      some ["a b c d", "b c d e", "c d e", "d e", "e"] ∧
    ((5 : Nat) - 3) % (4 - 3) = 0 ∧
    ¬ (chunk_text "a b c d e" 4 3).map List.length =
      some (((5 : Nat) - 3) / (4 - 3)) ∧
    ¬ ((pyWords "e").take 3).length = 3 := by
  decide

/-- C5 (amended): for a text of `N > chunk_size` words with
`overlap < chunk_size`, `chunk_text` returns the word windows starting at the
multiples of `chunk_size - overlap` below `N` — hence exactly
`(N-1)/(chunk_size-overlap) + 1 = ceil(N/(chunk_size-overlap))` chunks, one
more than the claimed count whenever the last full window ends exactly at `N`.
When additionally `2*overlap ≤ chunk_size` and `N - overlap` is divisible by
`chunk_size - overlap`, every consecutive window pair shares exactly
`overlap` words at the boundary: the left window's last `overlap` words are
the right window's first `overlap` words. -/
theorem chunk_text_chunks (text : String) (cs ov : Nat) (hov : ov < cs)
    (hN : cs < (pyWords text).length) :
    chunk_text text (cs : Int) (ov : Int) =
      some ((chunkWindows (pyWords text) cs ov).map fun w => " ".intercalate w) ∧
    (chunkWindows (pyWords text) cs ov).length =
      ((pyWords text).length - 1) / (cs - ov) + 1 ∧
    (2 * ov ≤ cs → ((pyWords text).length - ov) % (cs - ov) = 0 →
      ∀ j w₁ w₂, (chunkWindows (pyWords text) cs ov)[j]? = some w₁ →
        (chunkWindows (pyWords text) cs ov)[j + 1]? = some w₂ →
        w₁.drop (cs - ov) = w₂.take ov ∧ (w₂.take ov).length = ov) := by
  have ht : text ≠ "" := by
    intro h
    subst h
    have he : pyWords "" = [] := rfl
    rw [he] at hN
    simp only [List.length_nil] at hN
    exact absurd hN (by omega)
  have hle : ¬ ((pyWords text).length : Int) ≤ (cs : Int) := by omega
  refine ⟨?_, ?_, ?_⟩
  · simp only [chunk_text, if_neg ht, if_neg hle]
    have h0 : (0 : Int) = ((0 : Nat) : Int) := rfl
    rw [h0, chunkLoop_windows (pyWords text) cs ov hov (pyWords text).length 0 (by omega)]
    have hnw : numWin (pyWords text).length (cs - ov) 0 =
        ((pyWords text).length - 1) / (cs - ov) + 1 := by
      unfold numWin
      rw [if_pos (by omega)]
      simp
    rw [hnw]
    unfold chunkWindows
    rw [List.map_map]
    refine congrArg some ?_
    refine List.map_congr_left ?_
    intro j _
    simp [Function.comp]
  · simp [chunkWindows]
  · intro h2ov hdvd j w₁ w₂ h1 h2
    unfold chunkWindows at h1 h2
    obtain ⟨hj1, hw1⟩ := range_map_getElem _ _ _ _ h1
    obtain ⟨hj2, hw2⟩ := range_map_getElem _ _ _ _ h2
    subst hw1
    subst hw2
    have hs : 0 < cs - ov := by omega
    have hb : (j + 1) * (cs - ov) + ov ≤ (pyWords text).length :=
      window_share_bound (pyWords text).length (cs - ov) ov j hs (by omega) hdvd
        (by omega) (by omega)
    constructor
    · rw [List.drop_take, List.drop_drop, List.take_take]
      rw [min_eq_left (by omega : ov ≤ cs)]
      have e1 : cs - (cs - ov) = ov := by omega
      have e2 : j * (cs - ov) + (cs - ov) = (j + 1) * (cs - ov) := by ring
      rw [e1, e2]
    · rw [List.length_take, List.length_take, List.length_drop]
      omega

/-- C5 witness: `"a b c d e f"` with `chunk_size = 4`, `overlap = 2`
(divisible case): the produced chunks are the joined windows, and the first
two windows share exactly 2 boundary words. -/
theorem chunk_text_chunks_witness :
    chunk_text "a b c d e f" 4 2 =
      some ((chunkWindows (pyWords "a b c d e f") 4 2).map fun w => " ".intercalate w) ∧
    (["a", "b", "c", "d"].drop (4 - 2) = ["c", "d", "e", "f"].take 2 ∧
      (["c", "d", "e", "f"].take 2).length = 2) :=
  ⟨(chunk_text_chunks "a b c d e f" 4 2 (by decide) (by decide)).1,
   (chunk_text_chunks "a b c d e f" 4 2 (by decide) (by decide)).2.2 (by decide) (by decide)
     0 ["a", "b", "c", "d"] ["c", "d", "e", "f"] (by decide) (by decide)⟩

/-! ## C1 — semantic-search dedup, bound and ordering -/

/-- Unpacking a successful `get_document_by_id` lookup. -/
theorem get_document_by_id_some (docs : List Document) (i : Int) (doc : Document)
    (h : get_document_by_id docs i = some doc) : doc ∈ docs ∧ (doc.id : Int) = i := by
  unfold get_document_by_id at h
  have hp := @List.find?_some Document (fun d => decide ((d.id : Int) = i)) doc docs h
  exact ⟨List.mem_of_find?_eq_some h, of_decide_eq_true hp⟩

/-- Every emitted result comes from a candidate whose document id was not yet
seen and whose document the store could find. -/
theorem hydrateLoop_mem (docs : List Document) :
    ∀ (rs : List ScoredPoint) (seen : List Int) (x : SearchResult),
      x ∈ hydrateLoop docs rs seen →
      ∃ (r : ScoredPoint) (doc : Document),
        r ∈ rs ∧ r.payload.document_id ∉ seen ∧
        get_document_by_id docs r.payload.document_id = some doc ∧
        x = mkSearchResult doc r := by
  intro rs
  induction rs with
  | nil =>
    intro seen x hx
    simp [hydrateLoop] at hx
  | cons r rest ih =>
    intro seen x hx
    by_cases hseen : r.payload.document_id ∈ seen
    · rw [hydrateLoop, if_pos hseen] at hx
      obtain ⟨r', doc, hr, hns, hget, hx'⟩ := ih seen x hx
      exact ⟨r', doc, List.mem_cons_of_mem _ hr, hns, hget, hx'⟩
    · rw [hydrateLoop, if_neg hseen] at hx
      cases hget : get_document_by_id docs r.payload.document_id with
      | some doc =>
        rw [hget] at hx
        rcases List.mem_cons.mp hx with hx1 | hx2
        · exact ⟨r, doc, List.mem_cons_self _ _, hseen, hget, hx1⟩
        · obtain ⟨r', doc', hr, hns, hget', hx'⟩ := ih _ x hx2
          exact ⟨r', doc', List.mem_cons_of_mem _ hr,
            fun hmem => hns (List.mem_cons_of_mem _ hmem), hget', hx'⟩
      | none =>
        rw [hget] at hx
        obtain ⟨r', doc', hr, hns, hget', hx'⟩ := ih _ x hx
        exact ⟨r', doc', List.mem_cons_of_mem _ hr,
          fun hmem => hns (List.mem_cons_of_mem _ hmem), hget', hx'⟩

/-- Under the `documents.document_number` uniqueness invariant, hydration
never emits two results with the same document number: the loop deduplicates
by document id and distinct ids resolve to rows with distinct numbers. -/
theorem hydrateLoop_nodup (docs : List Document)
    (hdocs : docs.Pairwise fun a b => a.document_number ≠ b.document_number) :
    ∀ (rs : List ScoredPoint) (seen : List Int),
      (hydrateLoop docs rs seen).Pairwise
        fun a b => a.document_number ≠ b.document_number := by
  intro rs
  induction rs with
  | nil =>
    intro seen
    exact List.Pairwise.nil
  | cons r rest ih =>
    intro seen
    by_cases hseen : r.payload.document_id ∈ seen
    · rw [hydrateLoop, if_pos hseen]
      exact ih seen
    · rw [hydrateLoop, if_neg hseen]
      cases hget : get_document_by_id docs r.payload.document_id with
      | some doc =>
        refine List.Pairwise.cons ?_ (ih _)
        intro y hy
        obtain ⟨r', doc', _, hns', hget', rfl⟩ :=
          hydrateLoop_mem docs rest (r.payload.document_id :: seen) y hy
        have hid : r'.payload.document_id ≠ r.payload.document_id := by
          intro he
          exact hns' (by rw [he]; exact List.mem_cons_self _ _)
        obtain ⟨hmem, hdid⟩ := get_document_by_id_some docs _ doc hget
        obtain ⟨hmem', hdid'⟩ := get_document_by_id_some docs _ doc' hget'
        have hne : doc ≠ doc' := by
          intro he
          apply hid
          rw [← hdid', ← he, hdid]
        have hsym : Symmetric (fun a b : Document =>
            a.document_number ≠ b.document_number) := fun _ _ h => Ne.symm h
        have hnum := List.Pairwise.forall hsym hdocs hmem hmem' hne
        simpa [mkSearchResult] using hnum
      | none =>
        exact ih _

/-- The emitted scores are a subsequence of the candidate scores, in order. -/
theorem hydrateLoop_scores (docs : List Document) :
    ∀ (rs : List ScoredPoint) (seen : List Int),
      List.Sublist ((hydrateLoop docs rs seen).map fun x => x.score)
        (rs.map fun r => r.score) := by
  intro rs
  induction rs with
  | nil =>
    intro seen
    simp [hydrateLoop]
  | cons r rest ih =>
    intro seen
    by_cases hseen : r.payload.document_id ∈ seen
    · rw [hydrateLoop, if_pos hseen, List.map_cons]
      exact (ih seen).cons _
    · rw [hydrateLoop, if_neg hseen]
      cases hget : get_document_by_id docs r.payload.document_id with
      | some doc =>
        rw [List.map_cons, List.map_cons]
        exact (ih _).cons₂ _
      | none =>
        rw [List.map_cons]
        exact (ih _).cons _

/-- C1: whenever `SemanticSearch.search` returns a result list — given the
vector index's contract that a search with `limit` returns at most `limit`
hits in descending score order, and the store's uniqueness constraint on
`document_number` — the list holds at most `limit` records, no two records
share a document (possibly fewer than `limit` even when more matches exist,
since exactly `limit` chunk candidates are fetched before per-document
dedup), and the records appear in descending score order. -/
theorem semanticSearch_dedup_bounded_sorted (docs : List Document)
    (embedText : Except String (List Int))
    (client : List Int → Option QFilter → Except String (List ScoredPoint))
    (hts ag : Option (List String)) (source : Option String) (limit : Nat)
    (res : List SearchResult)
    (hdocs : docs.Pairwise fun a b => a.document_number ≠ b.document_number)
    (hclient : ∀ v f rs, client v f = Except.ok rs →
      rs.length ≤ limit ∧ (rs.map fun r => r.score).Pairwise (· ≥ ·))
    (hres : semanticSearch docs embedText client hts ag source = Except.ok res) :
    res.Pairwise (fun a b => a.document_number ≠ b.document_number) ∧
    res.length ≤ limit ∧
    (res.map fun x => x.score).Pairwise (· ≥ ·) := by
  cases embedText with
  | error e =>
    exact absurd hres (by simp [semanticSearch])
  | ok qv =>
    cases hcl : client qv (buildQueryFilter hts ag source) with
    | error e =>
      have hq : qdrantStoreSearch (client qv) hts ag source = [] := by
        simp [qdrantStoreSearch, hcl]
      rw [semanticSearch, hq] at hres
      simp only [if_pos rfl] at hres
      cases hres
      simp
    | ok rs =>
      have hq : qdrantStoreSearch (client qv) hts ag source = rs := by
        simp [qdrantStoreSearch, hcl]
      obtain ⟨hlen, hsort⟩ := hclient qv _ rs hcl
      rw [semanticSearch, hq] at hres
      by_cases hempty : rs = []
      · rw [if_pos hempty] at hres
        cases hres
        simp
      · rw [if_neg hempty] at hres
        cases hres
        refine ⟨hydrateLoop_nodup docs hdocs rs [], ?_, ?_⟩
        · have h1 := (hydrateLoop_scores docs rs []).length_le
          rw [List.length_map, List.length_map] at h1
          exact le_trans h1 hlen
        · exact List.Pairwise.sublist (hydrateLoop_scores docs rs []) hsort

/-- C1 witness: one document with two chunk hits (scores 9 and 7), limit 2:
the search returns the single deduplicated record. -/
theorem semanticSearch_dedup_bounded_sorted_witness :
    ([mkSearchResult docOne pointHi] : List SearchResult).Pairwise
      (fun a b => a.document_number ≠ b.document_number) ∧
    ([mkSearchResult docOne pointHi] : List SearchResult).length ≤ 2 ∧
    (([mkSearchResult docOne pointHi] : List SearchResult).map
      fun x => x.score).Pairwise (· ≥ ·) :=
  semanticSearch_dedup_bounded_sorted [docOne] (Except.ok [0])
    (fun _ _ => Except.ok [pointHi, pointLo]) none none none 2
    [mkSearchResult docOne pointHi]
    (List.pairwise_singleton _ _)
    (fun v f rs h => by cases h; exact ⟨by decide, by decide⟩)
    rfl

end CustomsKB
